import Mathlib

/-!
Verification development for the Unix-Clone `bash` front-end
(`src/bash.c`).  The file embeds the two core components of the source —
the terminal mode controller (`console_initialize` / `console_finalize`)
and the raw-mode line editor (`get_cmd`) — as executable Lean functions,
and proves the behavioural properties stated in the specification.

Modelling conventions:
* bytes and C `size_t` values are `Nat`; the C `int` status returned by
  `get_cmd` is `Int` (values `-1`, `0`, `1`);
* the caller-supplied array `char p_cmd[DEFAULT_CMD_MAXLEN]` is a total
  function `Nat → Nat` (the caller zeroes it with `memset` before each
  call, hence the all-zero initial buffer);
* one `read(STDIN_FILENO, &c, 1)` call is one `ReadEvent`: `byte c`
  (read returned 1 and delivered `c`), `eof` (read returned 0; the code
  does not test for this, so the loop proceeds with the `c = '\0'` set
  at the top of the iteration), or `err` (read returned -1);
* everything printed by `get_cmd` is collected in an output trace of
  bytes (`'^' = 94`, `'C' = 67`, `'\b' = 8`).
-/

namespace Bash

/-- Constant DEFAULT_CMD_MAXLEN from src/bash.c: maximum command length. -/
def DEFAULT_CMD_MAXLEN : Nat := 1024

/-- Constant DEFAULT_HISTORY_MAXLEN from src/bash.c. -/
def DEFAULT_HISTORY_MAXLEN : Nat := 30

/-- Constant KEY_ENTER (ASCII carriage return) from src/bash.c. -/
def KEY_ENTER : Nat := 13

/-- Value of the macro expansion KEY_CTRL of the character c, namely 0x03. -/
def KEY_CTRL_C : Nat := 3

/-- Value of the macro expansion KEY_CTRL of the character d, namely 0x04. -/
def KEY_CTRL_D : Nat := 4

/-- Constant KEY_BACKSPACE from src/bash.c (never handled specially). -/
def KEY_BACKSPACE : Nat := 127

/-- Constant KEY_ESCAPE from src/bash.c (never handled specially). -/
def KEY_ESCAPE : Nat := 27

/-! ## Terminal mode controller -/

/-- Embedding of `struct termios`: the four flag words manipulated by
`console_initialize`.  Flag bit values are the usual glibc ones; the
theorems below do not depend on the particular values. -/
structure Termios where
  c_iflag : Nat
  c_oflag : Nat
  c_cflag : Nat
  c_lflag : Nat
deriving DecidableEq

/-- Flag constant ECHO. -/
def ECHO : Nat := 8
/-- Flag constant ICANON. -/
def ICANON : Nat := 2
/-- Flag constant ISIG. -/
def ISIG : Nat := 1
/-- Flag constant IEXTEN. -/
def IEXTEN : Nat := 32768
/-- Flag constant BRKINT. -/
def BRKINT : Nat := 2
/-- Flag constant ICRNL. -/
def ICRNL : Nat := 256
/-- Flag constant INPCK. -/
def INPCK : Nat := 16
/-- Flag constant ISTRIP. -/
def ISTRIP : Nat := 32
/-- Flag constant IXON. -/
def IXON : Nat := 1024
/-- Flag constant OPOST. -/
def OPOST : Nat := 1
/-- Flag constant CS8. -/
def CS8 : Nat := 48

/-- Clearing the bits of `mask` in `x`, the Nat rendering of the C
idiom `x &= ~mask` (the bits of `x &&& mask` are a sub-multiset of the
bits of `x`, so subtraction clears exactly those bits). -/
def clearBits (x mask : Nat) : Nat := x - (x &&& mask)

/-- The flag configuration `console_initialize` performs on
`new_console` (src/bash.c lines 79-83). -/
def configure_raw (t : Termios) : Termios :=
  { c_lflag := clearBits t.c_lflag (ECHO ||| ICANON ||| ISIG ||| IEXTEN)
    c_iflag := clearBits t.c_iflag (BRKINT ||| ICRNL ||| INPCK ||| ISTRIP ||| IXON)
    c_oflag := clearBits t.c_oflag OPOST
    c_cflag := t.c_cflag ||| CS8 }

/-- Embedding of `console_t` (src/bash.c lines 48-54).  The unused and
never-populated `pp_history` pointer is not modelled; `history_max`
is kept. -/
structure Console where
  old_console : Termios
  new_console : Termios
  history_max : Nat
deriving DecidableEq

/-- State of the actual terminal device together with the outcome of
the termios syscalls on it: `tcgetattr` succeeds iff `isTTY`;
`tcsetattr` succeeds iff `isTTY && applyOk` and then replaces `term`.
Both flags are properties of the file descriptor and persist across
calls (a descriptor that is not a terminal fails both calls). -/
structure TermWorld where
  term : Termios
  isTTY : Bool
  applyOk : Bool
deriving DecidableEq

/-- Result of `console_initialize`: the returned status, the console
(the C function mutates it through the pointer) and the world. -/
structure InitResult where
  status : Int
  console : Option Console
  world : TermWorld
deriving DecidableEq

/-- Embedding of `console_initialize` (src/bash.c lines 63-96): on a
NULL console return -1; otherwise snapshot the current configuration
into `old_console` and `new_console` (two `tcgetattr` calls on the same
descriptor, failing together when the descriptor is not a tty),
configure the raw flags on `new_console`, and apply it with
`tcsetattr`; status 0 only when the apply succeeded. -/
def console_initialize (p : Option Console) (w : TermWorld) : InitResult :=
  match p with
  | none => ⟨-1, none, w⟩
  | some c =>
    if w.isTTY then
      let c2 : Console := { c with old_console := w.term
                                   new_console := configure_raw w.term }
      if w.applyOk then ⟨0, some c2, { w with term := configure_raw w.term }⟩
      else ⟨-1, some c2, w⟩
    else ⟨-1, some c, w⟩

/-- Embedding of `console_finalize` (src/bash.c lines 103-115): a NULL
console is a no-op; otherwise one `tcsetattr` restoring `old_console`,
whose return value the C code ignores. -/
def console_finalize (p : Option Console) (w : TermWorld) : TermWorld :=
  match p with
  | none => w
  | some c => if w.isTTY && w.applyOk then { w with term := c.old_console } else w

/-! ## Line editor (`get_cmd`) -/

/-- One outcome of the `read(STDIN_FILENO, &c, 1)` call at the top of
the `get_cmd` loop. -/
inductive ReadEvent where
  | byte (c : Nat)
  | eof
  | err
deriving DecidableEq

/-- The local state of one `get_cmd` invocation: the caller's buffer
`p_cmd`, the locals `cmd_len` and `cmd_idx`, and the trace of bytes
printed so far. -/
structure GetCmdState where
  buf : Nat → Nat
  cmd_len : Nat
  cmd_idx : Nat
  out : List Nat

/-- State at entry of `get_cmd` when called from `console_run`, which
zeroes `p_cmd` with `memset` before every call. -/
def initState : GetCmdState :=
  { buf := fun _ => 0, cmd_len := 0, cmd_idx := 0, out := [] }

/-- Embedding of the shift loop of the default case (src/bash.c lines
193-197): `for (size_t i = cmd_len; i > cmd_idx; --i) p_cmd[i] =
p_cmd[i-1];`.  `shift_chars arr idx i` runs the loop body for
`i, i-1, ..., idx+1`. -/
def shift_chars (arr : Nat → Nat) (idx : Nat) : Nat → (Nat → Nat)
  | 0 => arr
  | i + 1 =>
    if idx < i + 1 then
      shift_chars (fun j => if j = i + 1 then arr i else arr j) idx i
    else arr

/-- Embedding of the `default:` case of the `get_cmd` switch
(src/bash.c lines 186-216): bounds check, echo of `c`, right shift,
insertion at the cursor, increment of length and cursor, re-render of
the tail, and one backspace (byte 8) per re-rendered character. -/
def default_case (st : GetCmdState) (c : Nat) : GetCmdState :=
  if DEFAULT_CMD_MAXLEN ≤ st.cmd_len then st
  else
    let buf2 : Nat → Nat :=
      fun j => if j = st.cmd_idx then c else shift_chars st.buf st.cmd_idx st.cmd_len j
    let len2 := st.cmd_len + 1
    let idx2 := st.cmd_idx + 1
    { buf := buf2
      cmd_len := len2
      cmd_idx := idx2
      out := st.out ++ c :: ((List.range (len2 - idx2)).map fun k => buf2 (idx2 + k))
               ++ List.replicate (len2 - idx2) 8 }

/-- One iteration of the `get_cmd` loop (src/bash.c lines 158-218) on
one read outcome.  `Sum.inl` is the next editing state, `Sum.inr` the
returned status paired with the state visible at return.  On `eof`
(read returns 0) the code does not exit: the switch runs with the
`c = '\0'` assigned at the top of the iteration. -/
def get_cmd_step (st : GetCmdState) (e : ReadEvent) :
    GetCmdState ⊕ (Int × GetCmdState) :=
  match e with
  | .err => .inr (-1, st)
  | .eof => .inl (default_case st 0)
  | .byte c =>
    if c = KEY_CTRL_C then .inr (1, { st with out := st.out ++ [94, 67] })
    else if c = KEY_CTRL_D then .inr (-1, st)
    else if c = KEY_ENTER then .inr (0, st)
    else .inl (default_case st c)

/-- The `get_cmd` loop run on a list of read outcomes: `Sum.inr` when
the function returned while consuming the list, `Sum.inl st` when the
whole list was consumed without returning (the next iteration would
block reading a further byte). -/
def get_cmd_run : List ReadEvent → GetCmdState → GetCmdState ⊕ (Int × GetCmdState)
  | [], st => .inl st
  | e :: rest, st =>
    match get_cmd_step st e with
    | .inl st2 => get_cmd_run rest st2
    | .inr r => .inr r

/-- The editing state carried by either side of a run outcome. -/
def stateOf : GetCmdState ⊕ (Int × GetCmdState) → GetCmdState
  | .inl st => st
  | .inr (_, st) => st

/-- The returned status of a run outcome, if it returned. -/
def statusOf : GetCmdState ⊕ (Int × GetCmdState) → Option Int
  | .inl _ => none
  | .inr (s, _) => some s

/-- The line content: the first `cmd_len` cells of the buffer. -/
def lineOf (st : GetCmdState) : List Nat :=
  (List.range st.cmd_len).map st.buf

/-- Embedding of the hint logic of `console_run` (src/bash.c lines
265-273): after `get_cmd` returns, the hint `Press CTRL-D to exit.` is
printed iff the status is 1 and `0 == strlen(p_cmd)`; `strlen` of the
returned array is zero iff its first byte is NUL. -/
def prints_hint : GetCmdState ⊕ (Int × GetCmdState) → Bool
  | .inl _ => false
  | .inr (s, st) => s == 1 && st.buf 0 == 0

/-- The invariant maintained by the `get_cmd` loop: the cursor sits at
the end of the line and the length never exceeds the maximum. -/
def EditInv (st : GetCmdState) : Prop :=
  st.cmd_idx = st.cmd_len ∧ st.cmd_len ≤ DEFAULT_CMD_MAXLEN

/-- Read outcomes on which the `get_cmd` loop does not return: any
byte other than 0x03, 0x04 and 13, and the unchecked end-of-stream
outcome (read returning 0). -/
def Continuing : ReadEvent → Prop
  | .byte c => c ≠ KEY_CTRL_C ∧ c ≠ KEY_CTRL_D ∧ c ≠ KEY_ENTER
  | .eof => True
  | .err => False

/-- A concrete editing state whose buffer is full (1024 bytes 97). -/
def full_buffer_state : GetCmdState :=
  { buf := fun _ => 97, cmd_len := 1024, cmd_idx := 1024, out := [] }

/-- A concrete editing state with the cursor strictly inside the line
(length 3, cursor 1), used to exercise the mid-line insert. -/
def midline_state : GetCmdState :=
  { buf := fun j => j + 50, cmd_len := 3, cmd_idx := 1, out := [] }

/-- A concrete console value as zero-initialized by `main`. -/
def console0 : Console :=
  { old_console := ⟨0, 0, 0, 0⟩, new_console := ⟨0, 0, 0, 0⟩,
    history_max := DEFAULT_HISTORY_MAXLEN }

/-- A concrete world whose descriptor is not a terminal. -/
def world_no_tty : TermWorld := { term := ⟨1, 2, 3, 4⟩, isTTY := false, applyOk := true }

/-- A concrete world with a working terminal. -/
def world_tty : TermWorld := { term := ⟨1, 2, 3, 4⟩, isTTY := true, applyOk := true }

/-- The run of `get_cmd` on input bytes l, s, X followed by Ctrl-C. -/
def lsx_cancel : GetCmdState ⊕ (Int × GetCmdState) :=
  get_cmd_run [ReadEvent.byte 108, ReadEvent.byte 115, ReadEvent.byte 88,
               ReadEvent.byte 3] initState

/-- The run of `get_cmd` on a typed NUL byte followed by Ctrl-C. -/
def nul_cancel : GetCmdState ⊕ (Int × GetCmdState) :=
  get_cmd_run [ReadEvent.byte 0, ReadEvent.byte 3] initState

/-! ## Helper lemmas -/

/-- Pointwise description of the shift loop: positions strictly above
the cursor and at most `i` receive the value of their left neighbour,
every other position is untouched. -/
theorem shift_chars_apply (i : Nat) :
    ∀ (arr : Nat → Nat) (idx j : Nat),
      shift_chars arr idx i j = if idx < j ∧ j ≤ i then arr (j - 1) else arr j := by
  induction i with
  | zero =>
    intro arr idx j
    have h : ¬ (idx < j ∧ j ≤ 0) := by omega
    simp only [shift_chars, h, if_false]
  | succ i ih =>
    intro arr idx j
    simp only [shift_chars]
    by_cases h : idx < i + 1
    · simp only [if_pos h, ih]
      by_cases hj : idx < j ∧ j ≤ i
      · have h1 : j - 1 ≠ i + 1 := by omega
        have h2 : idx < j ∧ j ≤ i + 1 := ⟨hj.1, by omega⟩
        simp only [if_pos hj, if_pos h2, h1, if_false]
      · by_cases hji : j = i + 1
        · subst hji
          have h2 : idx < i + 1 ∧ i + 1 ≤ i + 1 := ⟨h, le_refl _⟩
          simp only [if_neg hj, if_pos h2, if_pos rfl, if_true, Nat.add_sub_cancel]
        · have h2 : ¬ (idx < j ∧ j ≤ i + 1) := by omega
          simp only [if_neg hj, if_neg hji, if_neg h2]
    · have h2 : ¬ (idx < j ∧ j ≤ i + 1) := by omega
      simp only [if_neg h, if_neg h2]

/-- When the cursor is at the end of the line the shift loop body never
runs: the buffer is returned unchanged. -/
theorem shift_chars_self (arr : Nat → Nat) (n : Nat) : shift_chars arr n n = arr := by
  funext j
  rw [shift_chars_apply]
  have h : ¬ (n < j ∧ j ≤ n) := by omega
  rw [if_neg h]

/-- Splitting a run over an input concatenation. -/
theorem get_cmd_run_append (xs ys : List ReadEvent) (st : GetCmdState) :
    get_cmd_run (xs ++ ys) st =
      match get_cmd_run xs st with
      | .inl st2 => get_cmd_run ys st2
      | .inr r => .inr r := by
  induction xs generalizing st with
  | nil => rfl
  | cons e rest ih =>
    simp only [List.cons_append, get_cmd_run]
    cases get_cmd_step st e with
    | inl st2 => exact ih st2
    | inr r => rfl

/-- The default case preserves the editor invariant. -/
theorem default_case_inv {st : GetCmdState} (h : EditInv st) (c : Nat) :
    EditInv (default_case st c) := by
  obtain ⟨h1, h2⟩ := h
  unfold default_case
  by_cases hb : DEFAULT_CMD_MAXLEN ≤ st.cmd_len
  · rw [if_pos hb]; exact ⟨h1, h2⟩
  · rw [if_neg hb]
    exact ⟨(by omega : st.cmd_idx + 1 = st.cmd_len + 1),
           (by omega : st.cmd_len + 1 ≤ DEFAULT_CMD_MAXLEN)⟩

/-- Every state reachable by the `get_cmd` loop from an invariant state
satisfies the editor invariant, whether the loop is still running or
has returned. -/
theorem get_cmd_run_inv (evs : List ReadEvent) :
    ∀ st : GetCmdState, EditInv st → EditInv (stateOf (get_cmd_run evs st)) := by
  induction evs with
  | nil => intro st h; exact h
  | cons e rest ih =>
    intro st h
    simp only [get_cmd_run]
    cases e with
    | err => exact h
    | eof => exact ih _ (default_case_inv h 0)
    | byte c =>
      simp only [get_cmd_step]
      by_cases h3 : c = KEY_CTRL_C
      · rw [if_pos h3]; exact h
      · rw [if_neg h3]
        by_cases h4 : c = KEY_CTRL_D
        · rw [if_pos h4]; exact h
        · rw [if_neg h4]
          by_cases h13 : c = KEY_ENTER
          · rw [if_pos h13]; exact h
          · rw [if_neg h13]; exact ih _ (default_case_inv h c)

/-- Characterization of a run over bytes that hit the default case,
started from a state whose cursor is at the end of the line and with
enough room: the bytes are appended in order, cursor and length advance
together, and each byte is echoed exactly once (no re-render, no
backspaces, because the cursor is at the end). -/
theorem get_cmd_run_printable (bs : List Nat) :
    ∀ st : GetCmdState,
      (∀ b ∈ bs, b ≠ KEY_CTRL_C ∧ b ≠ KEY_CTRL_D ∧ b ≠ KEY_ENTER) →
      st.cmd_idx = st.cmd_len →
      st.cmd_len + bs.length ≤ DEFAULT_CMD_MAXLEN →
      get_cmd_run (bs.map ReadEvent.byte) st = .inl
        { buf := fun j => if st.cmd_len ≤ j ∧ j < st.cmd_len + bs.length
                          then bs.getD (j - st.cmd_len) 0 else st.buf j
          cmd_len := st.cmd_len + bs.length
          cmd_idx := st.cmd_idx + bs.length
          out := st.out ++ bs } := by
  induction bs with
  | nil =>
    intro st _ _ _
    simp only [List.map_nil, get_cmd_run, List.length_nil, Nat.add_zero, List.append_nil]
    congr 1
    cases st with
    | mk b l i o =>
      simp only [GetCmdState.mk.injEq, and_true, true_and]
      funext j
      have h : ¬ (l ≤ j ∧ j < l) := by omega
      rw [if_neg h]
  | cons b rest ih =>
    intro st hb hidx hlen
    have hb1 := hb b (List.mem_cons_self b rest)
    have hbr : ∀ x ∈ rest, x ≠ KEY_CTRL_C ∧ x ≠ KEY_CTRL_D ∧ x ≠ KEY_ENTER :=
      fun x hx => hb x (List.mem_cons_of_mem b hx)
    have hL : rest.length + 1 = (b :: rest).length := by simp
    have hlt : ¬ DEFAULT_CMD_MAXLEN ≤ st.cmd_len := by
      simp only [List.length_cons] at hlen; omega
    simp only [List.map_cons, get_cmd_run, get_cmd_step]
    rw [if_neg hb1.1, if_neg hb1.2.1, if_neg hb1.2.2]
    have hstep : default_case st b =
        { buf := fun j => if j = st.cmd_idx then b else st.buf j
          cmd_len := st.cmd_len + 1
          cmd_idx := st.cmd_idx + 1
          out := st.out ++ [b] } := by
      unfold default_case
      rw [if_neg hlt]
      have hsh : shift_chars st.buf st.cmd_idx st.cmd_len = st.buf := by
        rw [hidx]; exact shift_chars_self _ _
      have hz : st.cmd_len + 1 - (st.cmd_idx + 1) = 0 := by omega
      simp only [hsh, hz, List.range_zero, List.map_nil, List.replicate_zero,
                 List.nil_append, List.append_nil]
    dsimp only
    rw [hstep]
    rw [ih _ hbr
        (by show st.cmd_idx + 1 = st.cmd_len + 1; omega)
        (by show st.cmd_len + 1 + rest.length ≤ DEFAULT_CMD_MAXLEN
            simp only [List.length_cons] at hlen; omega)]
    dsimp only
    simp only [Sum.inl.injEq, GetCmdState.mk.injEq]
    simp only [List.length_cons]
    refine ⟨?_, by omega, by omega, ?_⟩
    · funext j
      by_cases hA : j < st.cmd_len
      · have e1 : ¬ (st.cmd_len + 1 ≤ j ∧ j < st.cmd_len + 1 + rest.length) := by omega
        have e2 : ¬ (st.cmd_len ≤ j ∧ j < st.cmd_len + (rest.length + 1)) := by omega
        have e3 : j ≠ st.cmd_idx := by omega
        rw [if_neg e1, if_neg e2, if_neg e3]
      · by_cases hB : j = st.cmd_len
        · have e1 : ¬ (st.cmd_len + 1 ≤ j ∧ j < st.cmd_len + 1 + rest.length) := by omega
          have e2 : st.cmd_len ≤ j ∧ j < st.cmd_len + (rest.length + 1) := by omega
          have e3 : j = st.cmd_idx := by omega
          have e4 : j - st.cmd_len = 0 := by omega
          rw [if_neg e1, if_pos e2, if_pos e3, e4, List.getD_cons_zero]
        · by_cases hC : j < st.cmd_len + 1 + rest.length
          · have e1 : st.cmd_len + 1 ≤ j ∧ j < st.cmd_len + 1 + rest.length := by omega
            have e2 : st.cmd_len ≤ j ∧ j < st.cmd_len + (rest.length + 1) := by omega
            have e4 : j - st.cmd_len = (j - (st.cmd_len + 1)) + 1 := by omega
            rw [if_pos e1, if_pos e2, e4, List.getD_cons_succ]
          · have e1 : ¬ (st.cmd_len + 1 ≤ j ∧ j < st.cmd_len + 1 + rest.length) := by omega
            have e2 : ¬ (st.cmd_len ≤ j ∧ j < st.cmd_len + (rest.length + 1)) := by omega
            have e3 : j ≠ st.cmd_idx := by omega
            rw [if_neg e1, if_neg e2, if_neg e3]
    · rw [List.append_assoc]
      rfl

/-- Once the buffer is full, further default-case bytes leave the whole
editing state unchanged. -/
theorem get_cmd_run_full (bs : List Nat) :
    ∀ st : GetCmdState,
      (∀ b ∈ bs, b ≠ KEY_CTRL_C ∧ b ≠ KEY_CTRL_D ∧ b ≠ KEY_ENTER) →
      DEFAULT_CMD_MAXLEN ≤ st.cmd_len →
      get_cmd_run (bs.map ReadEvent.byte) st = .inl st := by
  induction bs with
  | nil => intro st _ _; rfl
  | cons b rest ih =>
    intro st hb hfull
    have hb1 := hb b (List.mem_cons_self b rest)
    simp only [List.map_cons, get_cmd_run, get_cmd_step]
    rw [if_neg hb1.1, if_neg hb1.2.1, if_neg hb1.2.2]
    have hdc : default_case st b = st := by
      unfold default_case; rw [if_pos hfull]
    rw [hdc]
    exact ih st (fun x hx => hb x (List.mem_cons_of_mem b hx)) hfull

/-- A run over continuing events only (no interrupt, no end-of-input
byte, no terminator, no read failure) never returns. -/
theorem get_cmd_run_no_return (evs : List ReadEvent) :
    ∀ st : GetCmdState, (∀ e ∈ evs, Continuing e) →
      ∃ st2, get_cmd_run evs st = .inl st2 := by
  induction evs with
  | nil => intro st _; exact ⟨st, rfl⟩
  | cons e rest ih =>
    intro st h
    have h1 : Continuing e := h e (List.mem_cons_self e rest)
    have hr : ∀ x ∈ rest, Continuing x := fun x hx => h x (List.mem_cons_of_mem e hx)
    cases e with
    | err => exact False.elim h1
    | eof =>
      simp only [get_cmd_run, get_cmd_step]
      exact ih _ hr
    | byte c =>
      obtain ⟨h3, h4, h13⟩ := h1
      simp only [get_cmd_run, get_cmd_step]
      rw [if_neg h3, if_neg h4, if_neg h13]
      exact ih _ hr

/-- Specialization of the printable-run characterization to the state
`get_cmd` starts from when called by `console_run`. -/
theorem get_cmd_run_printable_init (bs : List Nat)
    (hb : ∀ b ∈ bs, b ≠ KEY_CTRL_C ∧ b ≠ KEY_CTRL_D ∧ b ≠ KEY_ENTER)
    (hlen : bs.length ≤ DEFAULT_CMD_MAXLEN) :
    get_cmd_run (bs.map ReadEvent.byte) initState = .inl
      { buf := fun j => if j < bs.length then bs.getD j 0 else 0
        cmd_len := bs.length
        cmd_idx := bs.length
        out := bs } := by
  have h0 : initState.cmd_len + bs.length ≤ DEFAULT_CMD_MAXLEN := by
    simpa [initState] using hlen
  rw [get_cmd_run_printable bs initState hb rfl h0]
  congr 1
  simp only [initState, Nat.zero_add, Nat.sub_zero, Nat.zero_le, true_and,
             List.nil_append]

/-! ## Claim theorems -/

/-- C9: throughout every execution of `get_cmd` the cursor index equals
the buffer length (every run, hence every prefix of a run, ends in a
state with `cmd_idx = cmd_len`), and at such states the right-shift
loop of the insert step moves no character, so every reachable
insertion is an append. -/
theorem cursor_always_at_end :
    (∀ evs : List ReadEvent,
        (stateOf (get_cmd_run evs initState)).cmd_idx
          = (stateOf (get_cmd_run evs initState)).cmd_len) ∧
    (∀ (arr : Nat → Nat) (n : Nat), shift_chars arr n n = arr) := by
  constructor
  · intro evs
    exact (get_cmd_run_inv evs initState ⟨rfl, Nat.zero_le _⟩).1
  · exact shift_chars_self

/-- C4: after any sequence of read outcomes the editing state satisfies
`cmd_idx ≤ cmd_len ≤ DEFAULT_CMD_MAXLEN` (every prefix of a run is
itself a run, so the bound holds after every byte), the returned line
never exceeds the maximum length, and a non-control byte arriving with
the buffer at the maximum leaves the state completely unchanged: not
inserted, not echoed, and no error. -/
theorem get_cmd_buffer_bounds :
    (∀ evs : List ReadEvent,
        (stateOf (get_cmd_run evs initState)).cmd_idx
            ≤ (stateOf (get_cmd_run evs initState)).cmd_len ∧
        (stateOf (get_cmd_run evs initState)).cmd_len ≤ DEFAULT_CMD_MAXLEN ∧
        (lineOf (stateOf (get_cmd_run evs initState))).length ≤ DEFAULT_CMD_MAXLEN) ∧
    (∀ (st : GetCmdState) (c : Nat), st.cmd_len = DEFAULT_CMD_MAXLEN →
        c ≠ KEY_CTRL_C → c ≠ KEY_CTRL_D → c ≠ KEY_ENTER →
        get_cmd_step st (ReadEvent.byte c) = .inl st) := by
  constructor
  · intro evs
    obtain ⟨h1, h2⟩ := get_cmd_run_inv evs initState ⟨rfl, Nat.zero_le _⟩
    refine ⟨by omega, h2, ?_⟩
    simp only [lineOf, List.length_map, List.length_range]
    exact h2
  · intro st c h1 h3 h4 h13
    simp only [get_cmd_step]
    rw [if_neg h3, if_neg h4, if_neg h13]
    have hdc : default_case st c = st := by
      unfold default_case
      rw [if_pos (le_of_eq h1.symm)]
    rw [hdc]

/-- Witness for C4 at the concrete inputs: one printable byte from the
initial state, and byte 97 arriving at a concrete full buffer. -/
theorem get_cmd_buffer_bounds_witness :
    ((stateOf (get_cmd_run [ReadEvent.byte 97] initState)).cmd_idx
        ≤ (stateOf (get_cmd_run [ReadEvent.byte 97] initState)).cmd_len ∧
      (stateOf (get_cmd_run [ReadEvent.byte 97] initState)).cmd_len ≤ DEFAULT_CMD_MAXLEN ∧
      (lineOf (stateOf (get_cmd_run [ReadEvent.byte 97] initState))).length
        ≤ DEFAULT_CMD_MAXLEN) ∧
    get_cmd_step full_buffer_state (ReadEvent.byte 97) = .inl full_buffer_state :=
  ⟨get_cmd_buffer_bounds.1 [ReadEvent.byte 97],
   get_cmd_buffer_bounds.2 full_buffer_state 97 rfl (by decide) (by decide) (by decide)⟩

/-- C5 counterexample: the status `get_cmd` returns for Ctrl-D is the
very same value `-1` it returns for a read failure, so `Terminated` is
not a distinct outcome from `Error` at the `get_cmd` interface. -/
theorem ctrl_d_status_equals_err_status :
    statusOf (get_cmd_run [ReadEvent.byte 4] initState) = some (-1) ∧
    statusOf (get_cmd_run [ReadEvent.err] initState) = some (-1) ∧
    statusOf (get_cmd_run [ReadEvent.byte 4] initState)
      = statusOf (get_cmd_run [ReadEvent.err] initState) :=
  ⟨rfl, rfl, rfl⟩

/-- C5 as amended: a Ctrl-D byte makes `get_cmd` return immediately
with the state untouched (zero characters consumed when it is the
first byte), with status `-1` — the same status a read failure
produces, so the caller cannot distinguish the two. -/
theorem get_cmd_ctrl_d :
    (∀ st : GetCmdState, get_cmd_step st (ReadEvent.byte KEY_CTRL_D) = .inr (-1, st)) ∧
    get_cmd_run [ReadEvent.byte KEY_CTRL_D] initState = .inr (-1, initState) ∧
    (∀ st : GetCmdState, get_cmd_step st ReadEvent.err = .inr (-1, st)) :=
  ⟨fun _ => rfl, rfl, fun _ => rfl⟩

/-- C10: every byte other than 0x03, 0x04 and 13 — backspace 0x7F,
escape 0x1B and NUL 0x00 included — reaches the default case and, space
permitting, is echoed and inserted literally: the new length is the old
length plus one (nothing is ever deleted), the byte lands at the cursor
and the output gains the echoed byte; no multi-byte sequence is ever
decoded (the step consumes exactly one byte). -/
theorem other_bytes_inserted_literally :
    (∀ (st : GetCmdState) (c : Nat),
        c ≠ KEY_CTRL_C → c ≠ KEY_CTRL_D → c ≠ KEY_ENTER →
        get_cmd_step st (ReadEvent.byte c) = .inl (default_case st c)) ∧
    (∀ (st : GetCmdState) (c : Nat), st.cmd_len < DEFAULT_CMD_MAXLEN →
        (default_case st c).buf st.cmd_idx = c ∧
        (default_case st c).cmd_len = st.cmd_len + 1 ∧
        ∃ tail : List Nat, (default_case st c).out = st.out ++ c :: tail) := by
  constructor
  · intro st c h3 h4 h13
    simp only [get_cmd_step]
    rw [if_neg h3, if_neg h4, if_neg h13]
  · intro st c hlen
    unfold default_case
    rw [if_neg (by omega : ¬ DEFAULT_CMD_MAXLEN ≤ st.cmd_len)]
    dsimp only
    exact ⟨if_pos rfl, rfl, ⟨_, by rw [List.append_assoc, List.cons_append]⟩⟩

/-- Witness for C10: the backspace byte 0x7F arriving at a concrete
mid-line state is handled by the default case and inserted, deleting
nothing. -/
theorem other_bytes_inserted_literally_witness :
    get_cmd_step midline_state (ReadEvent.byte KEY_BACKSPACE)
        = .inl (default_case midline_state KEY_BACKSPACE) ∧
    ((default_case midline_state KEY_BACKSPACE).buf midline_state.cmd_idx
        = KEY_BACKSPACE ∧
     (default_case midline_state KEY_BACKSPACE).cmd_len = midline_state.cmd_len + 1 ∧
     ∃ tail : List Nat, (default_case midline_state KEY_BACKSPACE).out
        = midline_state.out ++ KEY_BACKSPACE :: tail) :=
  ⟨other_bytes_inserted_literally.1 midline_state KEY_BACKSPACE
      (by decide) (by decide) (by decide),
   other_bytes_inserted_literally.2 midline_state KEY_BACKSPACE (by decide)⟩

/-- C7: from any buffer state with `cmd_idx ≤ cmd_len < maximum`, a
non-control byte is inserted at the cursor: characters left of the
cursor are untouched, each character at or after the cursor moves right
by exactly one with its value preserved, the inserted byte sits at the
old cursor position, and cursor and length both grow by one. -/
theorem insert_midline (st : GetCmdState) (c : Nat)
    (h3 : c ≠ KEY_CTRL_C) (h4 : c ≠ KEY_CTRL_D) (h13 : c ≠ KEY_ENTER)
    (_hcur : st.cmd_idx ≤ st.cmd_len) (hlen : st.cmd_len < DEFAULT_CMD_MAXLEN) :
    ∃ st2 : GetCmdState, get_cmd_step st (ReadEvent.byte c) = .inl st2 ∧
      st2.buf st.cmd_idx = c ∧
      (∀ j : Nat, j < st.cmd_idx → st2.buf j = st.buf j) ∧
      (∀ j : Nat, st.cmd_idx ≤ j → j < st.cmd_len → st2.buf (j + 1) = st.buf j) ∧
      st2.cmd_idx = st.cmd_idx + 1 ∧
      st2.cmd_len = st.cmd_len + 1 := by
  refine ⟨default_case st c, ?_, ?_⟩
  · simp only [get_cmd_step]
    rw [if_neg h3, if_neg h4, if_neg h13]
  · unfold default_case
    rw [if_neg (by omega : ¬ DEFAULT_CMD_MAXLEN ≤ st.cmd_len)]
    dsimp only
    refine ⟨if_pos rfl, ?_, ?_, rfl, rfl⟩
    · intro j hj
      show (if j = st.cmd_idx then c
            else shift_chars st.buf st.cmd_idx st.cmd_len j) = st.buf j
      rw [if_neg (by omega : ¬ j = st.cmd_idx), shift_chars_apply]
      rw [if_neg (by omega : ¬ (st.cmd_idx < j ∧ j ≤ st.cmd_len))]
    · intro j hj1 hj2
      show (if j + 1 = st.cmd_idx then c
            else shift_chars st.buf st.cmd_idx st.cmd_len (j + 1)) = st.buf j
      rw [if_neg (by omega : ¬ j + 1 = st.cmd_idx), shift_chars_apply]
      rw [if_pos (show st.cmd_idx < j + 1 ∧ j + 1 ≤ st.cmd_len by omega)]
      simp only [Nat.add_sub_cancel]

/-- Witness for C7 at a concrete mid-line state: buffer 50, 51, 52 of
length 3 with the cursor at index 1, inserting byte 99. -/
theorem insert_midline_witness :
    ∃ st2 : GetCmdState, get_cmd_step midline_state (ReadEvent.byte 99) = .inl st2 ∧
      st2.buf midline_state.cmd_idx = 99 ∧
      (∀ j : Nat, j < midline_state.cmd_idx → st2.buf j = midline_state.buf j) ∧
      (∀ j : Nat, midline_state.cmd_idx ≤ j → j < midline_state.cmd_len →
          st2.buf (j + 1) = midline_state.buf j) ∧
      st2.cmd_idx = midline_state.cmd_idx + 1 ∧
      st2.cmd_len = midline_state.cmd_len + 1 :=
  insert_midline midline_state 99 (by decide) (by decide) (by decide)
    (by decide) (by decide)

/-- C2: the code does not terminate when the input stream closes.  With
input bytes l, s followed by stream closure (read returning 0 from then
on), no number of loop iterations makes `get_cmd` return: the unchecked
read result 0 leaves `c` as the NUL assigned at the top of the
iteration, which falls to the default case like any other byte. -/
theorem get_cmd_closed_stream_loops :
    ¬ ∃ (n : Nat) (r : Int × GetCmdState),
        get_cmd_run (ReadEvent.byte 108 :: ReadEvent.byte 115 ::
          List.replicate n ReadEvent.eof) initState = .inr r := by
  rintro ⟨n, r, hr⟩
  have hcont : ∀ e ∈ (ReadEvent.byte 108 :: ReadEvent.byte 115 ::
      List.replicate n ReadEvent.eof), Continuing e := by
    intro e he
    simp only [List.mem_cons, List.mem_replicate] at he
    rcases he with rfl | rfl | ⟨-, rfl⟩
    · exact ⟨by decide, by decide, by decide⟩
    · exact ⟨by decide, by decide, by decide⟩
    · trivial
  obtain ⟨st2, h2⟩ := get_cmd_run_no_return _ initState hcont
  rw [h2] at hr
  exact Sum.noConfusion hr

/-- C1 as amended: for every sequence of printable bytes (no 0x03,
0x04, 13) of length at most DEFAULT_CMD_MAXLEN, followed by carriage
return, `get_cmd` returns status 0 with the buffer contents exactly
equal to the input and length preserved. -/
theorem get_cmd_roundtrip (bs : List Nat)
    (hb : ∀ b ∈ bs, b ≠ KEY_CTRL_C ∧ b ≠ KEY_CTRL_D ∧ b ≠ KEY_ENTER)
    (hlen : bs.length ≤ DEFAULT_CMD_MAXLEN) :
    ∃ st : GetCmdState,
      get_cmd_run (bs.map ReadEvent.byte ++ [ReadEvent.byte KEY_ENTER]) initState
        = .inr (0, st) ∧
      lineOf st = bs ∧ st.cmd_len = bs.length := by
  refine ⟨{ buf := fun j => if j < bs.length then bs.getD j 0 else 0
            cmd_len := bs.length, cmd_idx := bs.length, out := bs }, ?_, ?_, ?_⟩
  · rw [get_cmd_run_append, get_cmd_run_printable_init bs hb hlen]
    rfl
  · simp only [lineOf]
    apply List.ext_getElem
    · simp
    · intro i h1 h2
      have hi : i < bs.length := by simpa using h2
      simp only [List.getElem_map, List.getElem_range]
      rw [if_pos hi]
      exact List.getD_eq_getElem bs 0 hi
  · rfl

/-- Witness for C1 at the concrete input bytes l, s plus carriage
return: `get_cmd` completes with line l, s of length 2. -/
theorem get_cmd_roundtrip_witness :
    ∃ st : GetCmdState,
      get_cmd_run ([(108 : Nat), 115].map ReadEvent.byte
          ++ [ReadEvent.byte KEY_ENTER]) initState = .inr (0, st) ∧
      lineOf st = [108, 115] ∧ st.cmd_len = ([(108 : Nat), 115]).length :=
  get_cmd_roundtrip [108, 115] (by decide) (by decide)

/-- C1 counterexample: the claim as stated has no length bound, but on
1025 printable bytes followed by carriage return `get_cmd` returns
status 0 with a line that is NOT the input sequence — the 1025th byte
was dropped by the bounds check, so only 1024 bytes survive. -/
theorem get_cmd_roundtrip_overflow :
    statusOf (get_cmd_run (List.replicate 1025 (ReadEvent.byte 97)
        ++ [ReadEvent.byte KEY_ENTER]) initState) = some 0 ∧
    lineOf (stateOf (get_cmd_run (List.replicate 1025 (ReadEvent.byte 97)
        ++ [ReadEvent.byte KEY_ENTER]) initState)) ≠ List.replicate 1025 (97 : Nat) := by
  have hb : ∀ b ∈ List.replicate 1024 (97 : Nat),
      b ≠ KEY_CTRL_C ∧ b ≠ KEY_CTRL_D ∧ b ≠ KEY_ENTER := by
    intro b hbm
    rw [List.eq_of_mem_replicate hbm]
    exact ⟨by decide, by decide, by decide⟩
  have hlen : (List.replicate 1024 (97 : Nat)).length ≤ DEFAULT_CMD_MAXLEN := by
    rw [List.length_replicate]
    exact Nat.le_refl 1024
  obtain ⟨stA, hstA, hlenA⟩ :
      ∃ stX : GetCmdState,
        get_cmd_run ((List.replicate 1024 (97 : Nat)).map ReadEvent.byte) initState
          = .inl stX ∧
        stX.cmd_len = (List.replicate 1024 (97 : Nat)).length :=
    ⟨_, get_cmd_run_printable_init _ hb hlen, rfl⟩
  have hfull : get_cmd_run [ReadEvent.byte 97] stA = .inl stA :=
    get_cmd_run_full [97] stA
      (by intro x hx
          simp only [List.mem_singleton] at hx
          subst hx
          exact ⟨by decide, by decide, by decide⟩)
      (by rw [hlenA, List.length_replicate]; exact Nat.le_refl 1024)
  have hsplit : List.replicate 1025 (ReadEvent.byte 97)
      = (List.replicate 1024 (97 : Nat)).map ReadEvent.byte ++ [ReadEvent.byte 97] := by
    rw [List.map_replicate]
    exact List.replicate_succ' 1024 (ReadEvent.byte 97)
  have htotal : get_cmd_run (List.replicate 1025 (ReadEvent.byte 97)
      ++ [ReadEvent.byte KEY_ENTER]) initState = .inr (0, stA) := by
    rw [hsplit, List.append_assoc]
    simp only [get_cmd_run_append, hstA, hfull]
    rfl
  refine ⟨?_, ?_⟩
  · rw [htotal]; rfl
  · rw [htotal]
    intro hEq
    have hlenEq := congrArg List.length hEq
    simp only [stateOf, lineOf, List.length_map, List.length_range,
               List.length_replicate] at hlenEq
    rw [hlenA] at hlenEq
    simp only [List.length_replicate] at hlenEq
    omega

/-- C3 as amended: after any input prefix that has not yet returned,
a Ctrl-C byte makes `get_cmd` echo the two bytes of the interrupt
indicator and return status 1 immediately; the caller's buffer array is
NOT cleared — it keeps every byte typed so far (only `console_run`'s
`memset` before the next call makes the next line start empty). -/
theorem get_cmd_cancel (pre : List ReadEvent) (st2 : GetCmdState)
    (h : get_cmd_run pre initState = .inl st2) :
    get_cmd_run (pre ++ [ReadEvent.byte KEY_CTRL_C]) initState
      = .inr (1, { st2 with out := st2.out ++ [94, 67] }) := by
  rw [get_cmd_run_append, h]
  rfl

/-- Witness for C3 at the concrete prefix consisting of the byte l. -/
theorem get_cmd_cancel_witness :
    get_cmd_run [ReadEvent.byte 108] initState
        = .inl (stateOf (get_cmd_run [ReadEvent.byte 108] initState)) ∧
    get_cmd_run ([ReadEvent.byte 108] ++ [ReadEvent.byte KEY_CTRL_C]) initState
      = .inr (1, { stateOf (get_cmd_run [ReadEvent.byte 108] initState) with
                   out := (stateOf (get_cmd_run [ReadEvent.byte 108] initState)).out
                          ++ [94, 67] }) :=
  ⟨rfl, get_cmd_cancel [ReadEvent.byte 108] _ rfl⟩

/-- C3 counterexample: typing l, s, X and then Ctrl-C returns status 1,
but the bytes are not discarded — the caller's buffer still holds
l, s, X at positions 0, 1, 2 (it started all-zero), and `console_run`
does observe this residue through its `strlen` test. -/
theorem get_cmd_cancel_residual :
    statusOf lsx_cancel = some 1 ∧
    (stateOf lsx_cancel).buf 0 = 108 ∧
    (stateOf lsx_cancel).buf 1 = 115 ∧
    (stateOf lsx_cancel).buf 2 = 88 ∧
    initState.buf 0 = 0 ∧ initState.buf 1 = 0 ∧ initState.buf 2 = 0 := by
  refine ⟨by decide, by decide, by decide, by decide, rfl, rfl, rfl⟩

/-- Release applied twice equals release applied once: the restore is
to the fixed snapshot held in the console, so the second application
changes nothing. -/
theorem console_finalize_self (p : Option Console) (w : TermWorld) :
    console_finalize p (console_finalize p w) = console_finalize p w := by
  cases p with
  | none => rfl
  | some c =>
    simp only [console_finalize]
    by_cases hb : (w.isTTY && w.applyOk) = true
    · rw [if_pos hb]
      dsimp only
      rw [if_pos hb]
    · rw [if_neg hb, if_neg hb]

/-- C6: `console_finalize` is total and idempotent.  First conjunct:
when `console_initialize` failed (status -1: NULL console, `tcgetattr`
failure on a non-terminal, or `tcsetattr` apply failure), the following
`console_finalize` leaves the terminal state unchanged — and it returns
no status, so it cannot fault.  Second conjunct: after a successful
acquire, a second release right after a first one changes nothing. -/
theorem console_release_idempotent :
    (∀ (p : Option Console) (w : TermWorld),
        ( console_initialize p w).status = -1 →
        console_finalize ( console_initialize p w).console ( console_initialize p w).world
          = ( console_initialize p w).world) ∧
    (∀ (p : Option Console) (w : TermWorld),
        ( console_initialize p w).status = 0 →
        console_finalize ( console_initialize p w).console
            (console_finalize ( console_initialize p w).console
              ( console_initialize p w).world)
          = console_finalize ( console_initialize p w).console
              ( console_initialize p w).world) := by
  constructor
  · intro p w h
    cases p with
    | none => rfl
    | some c =>
      cases hT : w.isTTY with
      | false =>
        simp only [ console_initialize, console_finalize, hT]
        simp [hT]
      | true =>
        cases hA : w.applyOk with
        | false =>
          simp only [ console_initialize, console_finalize, hT, hA]
          simp [hT, hA]
        | true =>
          simp only [ console_initialize, hT, hA] at h
          simp at h
  · intro p w _
    exact console_finalize_self _ _

/-- Witness for C6: a concrete failed acquire (descriptor not a tty)
followed by a release, and a concrete successful acquire followed by a
double release. -/
theorem console_release_idempotent_witness :
    (console_finalize ( console_initialize (some console0) world_no_tty).console
        ( console_initialize (some console0) world_no_tty).world
      = ( console_initialize (some console0) world_no_tty).world) ∧
    (console_finalize ( console_initialize (some console0) world_tty).console
        (console_finalize ( console_initialize (some console0) world_tty).console
          ( console_initialize (some console0) world_tty).world)
      = console_finalize ( console_initialize (some console0) world_tty).console
          ( console_initialize (some console0) world_tty).world) :=
  ⟨console_release_idempotent.1 (some console0) world_no_tty (by decide),
   console_release_idempotent.2 (some console0) world_tty (by decide)⟩

/-- C8 counterexample: cancelling after typing a NUL byte (Ctrl-@)
gives a non-empty in-progress line (length 1), yet `console_run` prints
the Ctrl-D hint, because its `strlen` test only sees the leading NUL —
so the hint is not printed "if and only if the line was empty". -/
theorem hint_on_nul_line :
    statusOf nul_cancel = some 1 ∧
    (stateOf nul_cancel).cmd_len = 1 ∧
    prints_hint nul_cancel = true :=
  ⟨by decide, by decide, by decide⟩

/-- C8 as amended: for a cancelled line none of whose bytes is NUL, the
hint is printed iff the line was empty at the moment of cancellation
(in general the code tests `strlen(p_cmd) == 0`, i.e. whether the first
buffer byte is NUL, which coincides with emptiness only when no NUL
byte was typed). -/
theorem hint_iff_line_empty (bs : List Nat)
    (hb : ∀ b ∈ bs, b ≠ 0 ∧ b ≠ KEY_CTRL_C ∧ b ≠ KEY_CTRL_D ∧ b ≠ KEY_ENTER) :
    prints_hint (get_cmd_run (bs.map ReadEvent.byte ++ [ReadEvent.byte KEY_CTRL_C])
        initState) = bs.isEmpty := by
  cases bs with
  | nil => decide
  | cons b tl =>
    have hb1 := hb b (List.mem_cons_self b tl)
    obtain ⟨stA, hstA, hbuf0, hlenA⟩ :
        ∃ stX : GetCmdState,
          get_cmd_run ((b :: tl.take 1023).map ReadEvent.byte) initState = .inl stX ∧
          stX.buf 0 = b ∧
          stX.cmd_len = (b :: tl.take 1023).length := by
      refine ⟨_, get_cmd_run_printable_init _ ?_ ?_, ?_, rfl⟩
      · intro x hx
        rcases List.mem_cons.mp hx with rfl | hx2
        · exact ⟨hb1.2.1, hb1.2.2.1, hb1.2.2.2⟩
        · have hmem : x ∈ tl := List.take_subset _ _ hx2
          have := hb x (List.mem_cons_of_mem b hmem)
          exact ⟨this.2.1, this.2.2.1, this.2.2.2⟩
      · have h1024 : DEFAULT_CMD_MAXLEN = 1024 := rfl
        rw [h1024, List.length_cons, List.length_take]
        omega
      · show (if 0 < (b :: tl.take 1023).length
              then (b :: tl.take 1023).getD 0 0 else 0) = b
        rw [if_pos (by simp)]
        exact List.getD_cons_zero
    have hdrop : get_cmd_run ((tl.drop 1023).map ReadEvent.byte) stA = .inl stA := by
      by_cases hle : tl.length ≤ 1023
      · rw [List.drop_eq_nil_of_le hle]
        rfl
      · apply get_cmd_run_full
        · intro x hx
          have hmem : x ∈ tl := List.drop_subset _ _ hx
          have := hb x (List.mem_cons_of_mem b hmem)
          exact ⟨this.2.1, this.2.2.1, this.2.2.2⟩
        · rw [hlenA]
          have h1024 : DEFAULT_CMD_MAXLEN = 1024 := rfl
          rw [h1024, List.length_cons, List.length_take]
          omega
    have hmap : (b :: tl).map ReadEvent.byte
        = (b :: tl.take 1023).map ReadEvent.byte ++ (tl.drop 1023).map ReadEvent.byte := by
      rw [← List.map_append, List.cons_append, List.take_append_drop]
    rw [hmap, List.append_assoc]
    simp only [get_cmd_run_append, hstA, hdrop]
    have hfin : get_cmd_run [ReadEvent.byte KEY_CTRL_C] stA
        = .inr (1, { stA with out := stA.out ++ [94, 67] }) := rfl
    rw [hfin]
    simp only [prints_hint, List.isEmpty_cons]
    simp [hbuf0, hb1.1]

/-- Witness for C8 at the concrete cancelled input consisting of the
single byte l: non-empty line, no hint. -/
theorem hint_iff_line_empty_witness :
    (∀ b ∈ [(108 : Nat)], b ≠ 0 ∧ b ≠ KEY_CTRL_C ∧ b ≠ KEY_CTRL_D ∧ b ≠ KEY_ENTER) ∧
    prints_hint (get_cmd_run ([(108 : Nat)].map ReadEvent.byte
        ++ [ReadEvent.byte KEY_CTRL_C]) initState) = ([(108 : Nat)]).isEmpty :=
  ⟨by decide, hint_iff_line_empty [108] (by decide)⟩

end Bash
